import Mathlib

/-!
# USBGuard kernel module: a shallow embedding

This file embeds the policy-store and authorization logic of the USBGuard
kernel module (src/usbguard.c, the mutex-protected variant, and the
earlier sysfs-only variant in src/unnamed/part_002) as executable Lean
definitions, and proves the specified properties about them.

Strings from the C code are modelled as `List Char`.  Kernel library
helpers that the module calls (`isspace`, `kstrtoul`, `strchr`, `sscanf`)
are modelled from their Linux implementations (lib/ctype.c, lib/kstrtox.c,
lib/vsprintf.c); machine integers are `Nat` with explicit wrap-arounds
where the C performs one.
-/

/-- Error number EINVAL (invalid argument), as in errno-base.h. -/
def EINVAL : Int := 22

/-- Error number ENOMEM (out of memory), as in errno-base.h. -/
def ENOMEM : Int := 12

/-- Error number ERANGE (result out of range), as in errno.h. -/
def ERANGE : Int := 34

/-- Kernel `isspace` (lib/ctype.c): the `_ctype` table marks 0x09..0x0D,
the blank 0x20, and 0xA0 (non-breaking space) with the `_S` flag. -/
def isSpace (c : Char) : Bool :=
  c == ' ' || c == '\t' || c == '\n' || c == '\x0b' || c == '\x0c' ||
    c == '\r' || c == '\xa0'

/-- Value of one hex digit, mirroring `_parse_integer` in lib/kstrtox.c:
decimal digits directly, letters via the `c | 0x20` lowercase trick. -/
def hexDigitVal (c : Char) : Option Nat :=
  let n := c.toNat
  if 48 ≤ n ∧ n ≤ 57 then some (n - 48)
  else
    let lc := n ||| 32
    if 97 ≤ lc ∧ lc ≤ 102 then some (lc - 87) else none

/-- A character accepted by the base-16 loop of `_parse_integer`. -/
def isHexDigit (c : Char) : Bool :=
  (hexDigitVal c).isSome

/-- Accumulated value of a run of hex digits (the `res = res * base + val`
loop of `_parse_integer`), as an unbounded natural number. -/
def hexVal (s : List Char) : Nat :=
  s.foldl (fun acc c => acc * 16 + (hexDigitVal c).getD 0) 0

/-- Model of `_parse_integer` with base 16: consumes the maximal run of hex digits,
returning the (unwrapped) accumulated value and the number of characters
consumed.  The caller checks the overflow flag, modelled here as the value
reaching 2^64 (`ULLONG_MAX` exceeded). -/
def parseInteger (s : List Char) : Nat × Nat :=
  let digits := s.takeWhile (fun c => isHexDigit c)
  (hexVal digits, digits.length)

/-- Model of `_parse_integer_fixup_radix` for an explicit base 16: skip a leading
`0x`/`0X`. -/
def fixupRadix16 (s : List Char) : List Char :=
  match s with
  | '0' :: c :: r => if c == 'x' || c == 'X' then r else s
  | _ => s

/-- Model of `kstrtoul(s, 16, &v)` (lib/kstrtox.c `_kstrtoull` followed by the
unsigned-long range check, a no-op on 64-bit): after the digit run only a
single optional newline may remain before the terminating NUL, otherwise
the call fails with -EINVAL; an accumulation overflow fails with -ERANGE. -/
def kstrtoul16 (s : List Char) : Except Int Nat :=
  let s2 := fixupRadix16 s
  let vr := parseInteger s2
  if 2 ^ 64 ≤ vr.1 then Except.error (-ERANGE)
  else if vr.2 = 0 then Except.error (-EINVAL)
  else
    let rest :=
      match s2.drop vr.2 with
      | '\n' :: r => r
      | r => r
    if rest = [] then Except.ok vr.1 else Except.error (-EINVAL)

/-- The `trim` helper from usbguard.c: skip leading whitespace, then overwrite
trailing whitespace with NULs. -/
def trim (s : List Char) : List Char :=
  let t := s.dropWhile (fun c => isSpace c)
  (t.reverse.dropWhile (fun c => isSpace c)).reverse

/-- Model of `strchr(p, ' ')`: the suffix of `p` starting at the first blank, or
none when `p` has no blank. -/
def strchrSpace (s : List Char) : Option (List Char) :=
  match s.dropWhile (fun c => c != ' ') with
  | [] => none
  | r => some r

/-- Function `parse_vidpid_line` from usbguard.c: trim, reject empty and `#` lines,
read the vendor id with `kstrtoul`, find the blank separator, skip
whitespace, read the product id with `kstrtoul`, range-check both. -/
def parse_vidpid_line (line : List Char) : Except Int (Nat × Nat) :=
  let p := trim line
  match p.head? with
  | none => Except.error (-EINVAL)
  | some c0 =>
    if c0 = '#' then Except.error (-EINVAL)
    else
      match kstrtoul16 p with
      | Except.error rc => Except.error rc
      | Except.ok v =>
        match strchrSpace p with
        | none => Except.error (-EINVAL)
        | some q =>
          match kstrtoul16 (q.dropWhile (fun c => isSpace c)) with
          | Except.error rc => Except.error rc
          | Except.ok pnum =>
            if 0xFFFF < v ∨ 0xFFFF < pnum then Except.error (-ERANGE)
            else Except.ok (v, pnum)

/-- Constant `MAX_RULES` from usbguard.c. -/
def MAX_RULES : Nat := 128

/-- Constant `MAX_SERIALS` from usbguard.c. -/
def MAX_SERIALS : Nat := 128

/-- The module state of usbguard.c: the `rules` array together with
`rule_count` (an ordered sequence of vid/pid pairs), and the
`blocked_serials` array together with `blocked_serial_count`. -/
structure Store where
  rules : List (Nat × Nat)
  blocked : List (List Char)
deriving DecidableEq

/-- The state right after `usbguard_init`: both counts zero. -/
def emptyStore : Store := ⟨[], []⟩

/-- Function `match_rules` from usbguard.c: linear scan of the rules array for an
exact vid/pid match. -/
def match_rules (st : Store) (vid pid : Nat) : Bool :=
  st.rules.any (fun r => r.1 == vid && r.2 == pid)

/-- Function `serial_blocked` from usbguard.c: a NULL (`none`) or empty serial is
never blocked; otherwise linear scan with `strcmp` for an exact match.
(The `blocked_serials[i]` NULL test guards failed `kstrdup` allocations,
which the embedding models as always succeeding.) -/
def serial_blocked (st : Store) (s : Option (List Char)) : Bool :=
  match s with
  | none => false
  | some t => if t = [] then false else st.blocked.any (fun b => b == t)

/-- Stub `check_interface_classes` from usbguard.c: a stub returning true. -/
def check_interface_classes : Bool := true

/-- The reasons logged by `usbguard_probe` before each -EACCES return,
plus the accepting outcome. -/
inductive DenyReason
  | identityNotAllowed
  | classNotAllowed
  | serialBlocked
deriving DecidableEq

/-- The decision computed by `usbguard_probe`: 0 maps to `allow`, each
-EACCES return to `deny` with the reason the code logs. -/
inductive Decision
  | allow
  | deny (r : DenyReason)
deriving DecidableEq

/-- Function `usbguard_probe` from usbguard.c.  The `serial` argument is the string
read by `usb_string` when `iSerialNumber` is set and the read returned a
positive length, and `none` otherwise (in which case the code never calls
`serial_blocked`). -/
def usbguard_probe (st : Store) (vid pid : Nat) (serial : Option (List Char)) :
    Decision :=
  if match_rules st vid pid = false then Decision.deny DenyReason.identityNotAllowed
  else if check_interface_classes = false then Decision.deny DenyReason.classNotAllowed
  else
    match serial with
    | some s =>
      if serial_blocked st (some s) = true then Decision.deny DenyReason.serialBlocked
      else Decision.allow
    | none => Decision.allow

/-- One line of the loading loops in `load_rules_from_file` and
`rules_store`: on a successful parse, append the pair when `rule_count`
is below `MAX_RULES`, otherwise leave the store untouched. -/
def loadLine (st : Store) (line : List Char) : Store :=
  match parse_vidpid_line line with
  | Except.ok vp =>
    if st.rules.length < MAX_RULES then { st with rules := st.rules ++ [vp] } else st
  | Except.error _ => st

/-- Function `load_rules_from_file` from usbguard.c, over the sequence of text
lines of the rules file (the `strchr`-on-newline splitting of the read
buffer).  The function always returns `ret = 0` once the file opened. -/
def load_rules_from_file (lines : List (List Char)) (st : Store) : Store × Int :=
  (lines.foldl loadLine st, 0)

/-- The newline splitting loop shared by `rules_store` and
`blocked_store`: `strchr(line, '\n')` cuts the buffer at each newline;
a trailing newline yields a final empty line, and an empty buffer is
processed as one empty line. -/
def splitNl : List Char → List (List Char)
  | [] => [[]]
  | c :: r =>
    if c = '\n' then [] :: splitNl r
    else
      match splitNl r with
      | h :: t => (c :: h) :: t
      | [] => [[c]]

/-- Function `rules_store` from usbguard.c (the sysfs `rules` write handler):
process each newline-separated line with `parse_vidpid_line (trim line)`
and the same guarded append as the file loader; the handler returns
`count` (the number of bytes written, a success) on every exit except a
failed `kstrdup` allocation, which the embedding models as succeeding. -/
def rules_store (st : Store) (buf : List Char) : Store × Int :=
  ((splitNl buf).foldl (fun s l => loadLine s (trim l)) st, (buf.length : Int))

/-- One line of `blocked_store`: trim, skip if empty, otherwise append a
copy when `blocked_serial_count` is below `MAX_SERIALS`. -/
def blockedLine (st : Store) (line : List Char) : Store :=
  let t := trim line
  if t = [] then st
  else if st.blocked.length < MAX_SERIALS then { st with blocked := st.blocked ++ [t] }
  else st

/-- Function `blocked_store` from usbguard.c (the sysfs `blocked_serials` write
handler); like `rules_store` it returns `count` on every exit except a
failed allocation. -/
def blocked_store (st : Store) (buf : List Char) : Store × Int :=
  ((splitNl buf).foldl blockedLine st, (buf.length : Int))

/-- The mutations the module can perform on its store after init: a bulk
load from the rules file, a sysfs `rules` write, and a sysfs
`blocked_serials` write. -/
inductive Op
  | load (lines : List (List Char))
  | rulesW (buf : List Char)
  | blockedW (buf : List Char)

/-- The store produced by one operation. -/
def applyOp (st : Store) (op : Op) : Store :=
  match op with
  | Op.load lines => (load_rules_from_file lines st).1
  | Op.rulesW buf => (rules_store st buf).1
  | Op.blockedW buf => (blocked_store st buf).1

/-- The store produced by a sequence of operations. -/
def runOps (st : Store) (ops : List Op) : Store :=
  ops.foldl applyOp st

/-- Constant `MAX_RULES` from the earlier variant in src/unnamed/part_002. -/
def MAX_RULES_V1 : Nat := 10

/-- The rule storage of src/unnamed/part_002: the parallel `allowed_vids`
and `allowed_pids` arrays with `rule_count`, paired for convenience. -/
structure StoreV1 where
  rules : List (Nat × Nat)
deriving DecidableEq

/-- Model of `skip_spaces` as used by the kernel `vsscanf`. -/
def skipSpaces (s : List Char) : List Char :=
  s.dropWhile (fun c => isSpace c)

/-- Model of `simple_strtoul(str, &next, 16)` (lib/vsprintf.c): skip a `0x`/`0X`
radix marker, consume the maximal run of hex digits, and return the value
wrapped at the unsigned-long width together with the rest of the string;
no strictness check and no overflow error. -/
def simple_strtoul16 (s : List Char) : Nat × List Char :=
  let s2 := fixupRadix16 s
  let vr := parseInteger s2
  (vr.1 % 2 ^ 64, s2.drop vr.2)

/-- One `%x` conversion of the kernel `vsscanf`: skip whitespace, fail if
the buffer is exhausted or the next character is not a hex digit,
otherwise convert with `simple_strtoul`. -/
def scanHexToken (s : List Char) : Option (Nat × List Char) :=
  let t := skipSpaces s
  match t.head? with
  | none => none
  | some c => if isHexDigit c then some (simple_strtoul16 t) else none

/-- Model of `sscanf(buf, "%x %x", &vid, &pid)` succeeding with 2 conversions:
both `%x` conversions succeed in order; each value is stored into an
`int`, wrapping at 32 bits. -/
def sscanf2 (s : List Char) : Option (Nat × Nat) :=
  match scanHexToken s with
  | none => none
  | some (v, rest) =>
    match scanHexToken rest with
    | none => none
    | some pr => some (v % 2 ^ 32, pr.1 % 2 ^ 32)

/-- Function `add_rule_store` from src/unnamed/part_002 (the sysfs `add_rule`
write handler): reject with -ENOMEM when the rule arrays are full, with
-EINVAL when the buffer does not scan as two hex values, and otherwise
append the pair and return `count` (the buffer length, a success). -/
def add_rule_store (st : StoreV1) (buf : List Char) : StoreV1 × Int :=
  if MAX_RULES_V1 ≤ st.rules.length then (st, -ENOMEM)
  else
    match sscanf2 buf with
    | none => (st, -EINVAL)
    | some vp => (⟨st.rules ++ [vp]⟩, (buf.length : Int))

/-- A sequence of `add_rule` sysfs writes, collecting each call's return
value. -/
def runAddCalls (st : StoreV1) : List (List Char) → StoreV1 × List Int
  | [] => (st, [])
  | b :: bs =>
    let r := add_rule_store st b
    let rest := runAddCalls r.1 bs
    (rest.1, r.2 :: rest.2)

/-! ## Parser lemmas -/

theorem drop_length_takeWhile (p : Char → Bool) :
    ∀ l : List Char, l.drop (l.takeWhile p).length = l.dropWhile p
  | [] => rfl
  | c :: r => by
    by_cases h : p c
    · simpa [List.takeWhile_cons, List.dropWhile_cons, h] using
        drop_length_takeWhile p r
    · simp [List.takeWhile_cons, List.dropWhile_cons, h]

theorem isHexDigit_ne_space {c : Char} (h : isHexDigit c = true) : (c != ' ') = true := by
  rcases eq_or_ne c ' ' with rfl | hne
  · exact absurd h (by decide)
  · simpa [bne_iff_ne] using hne

theorem strchrSpace_eq_none {s : List Char} (h : ∀ c ∈ s, (c != ' ') = true) :
    strchrSpace s = none := by
  simp [strchrSpace, List.dropWhile_eq_nil_iff.mpr h]

theorem kstrtoul16_ok_shape {s : List Char} {v : Nat} (h : kstrtoul16 s = Except.ok v) :
    (fixupRadix16 s).dropWhile (fun c => isHexDigit c) = [] ∨
      (fixupRadix16 s).dropWhile (fun c => isHexDigit c) = ['\n'] := by
  have hd := drop_length_takeWhile (fun c => isHexDigit c) (fixupRadix16 s)
  simp only [kstrtoul16, parseInteger] at h
  split at h
  · exact absurd h (by simp)
  · split at h
    · exact absurd h (by simp)
    · rw [hd] at h
      split at h
      · rename_i heq
        cases hrest : (fixupRadix16 s).dropWhile (fun c => isHexDigit c) with
        | nil => exact Or.inl rfl
        | cons c r =>
          rw [hrest] at heq
          by_cases hc : c = '\n'
          · subst hc
            simp at heq
            simp [hrest, heq]
          · exfalso
            revert heq
            split
            · rename_i hm
              cases hm
              exact fun hr => hc rfl
            · exact fun hr => by simp at hr
      · exact absurd h (by simp)

theorem fixupRadix16_cases (s : List Char) :
    fixupRadix16 s = s ∨
      ∃ c r, s = '0' :: c :: r ∧ (c = 'x' ∨ c = 'X') ∧ fixupRadix16 s = r := by
  unfold fixupRadix16
  split
  · rename_i c r
    split
    · rename_i hx
      refine Or.inr ⟨c, r, rfl, ?_, rfl⟩
      rcases Bool.or_eq_true_iff.mp hx with h | h
      · exact Or.inl (eq_of_beq h)
      · exact Or.inr (eq_of_beq h)
    · exact Or.inl rfl
  · exact Or.inl rfl

theorem kstrtoul16_no_space {s : List Char} {v : Nat} (h : kstrtoul16 s = Except.ok v) :
    ∀ c ∈ s, (c != ' ') = true := by
  have hshape := kstrtoul16_ok_shape h
  have hmem : ∀ c ∈ fixupRadix16 s, (c != ' ') = true := by
    intro c hc
    rw [← List.takeWhile_append_dropWhile (p := fun c => isHexDigit c)
      (l := fixupRadix16 s)] at hc
    rcases List.mem_append.mp hc with hc | hc
    · exact isHexDigit_ne_space (List.mem_takeWhile_imp hc)
    · rcases hshape with hsh | hsh <;> rw [hsh] at hc
      · cases hc
      · rcases List.mem_singleton.mp hc with rfl
        decide
  intro c hc
  rcases fixupRadix16_cases s with hfix | ⟨x, r, rfl, hx, hfix⟩
  · rw [hfix] at hmem
    exact hmem c hc
  · rw [hfix] at hmem
    rcases hc with _ | ⟨_, hc⟩
    · decide
    · rcases hc with _ | ⟨_, hc⟩
      · rcases hx with rfl | rfl <;> decide
      · exact hmem c hc

/-- The decisive parser fact: because `kstrtoul` accepts only when the
whole remaining string is a single number, any line on which the first
`kstrtoul` succeeds contains no blank, so `strchr(p, ' ')` fails; hence
`parse_vidpid_line` rejects every input. -/
theorem parse_vidpid_line_never_ok (line : List Char) :
    ∃ e, parse_vidpid_line line = Except.error e := by
  unfold parse_vidpid_line
  cases hh : (trim line).head? with
  | none => exact ⟨-EINVAL, by simp [hh]⟩
  | some c0 =>
    by_cases hc : c0 = '#'
    · exact ⟨-EINVAL, by simp [hh, hc]⟩
    · cases hk : kstrtoul16 (trim line) with
      | error rc => exact ⟨rc, by simp [hh, hc, hk]⟩
      | ok v =>
        have hns : strchrSpace (trim line) = none :=
          strchrSpace_eq_none (kstrtoul16_no_space hk)
        exact ⟨-EINVAL, by simp [hh, hc, hk, hns]⟩

theorem loadLine_of_error {st : Store} {line : List Char} {e : Int}
    (h : parse_vidpid_line line = Except.error e) : loadLine st line = st := by
  simp [loadLine, h]

theorem loadLine_eq_self (st : Store) (line : List Char) : loadLine st line = st := by
  obtain ⟨e, he⟩ := parse_vidpid_line_never_ok line
  exact loadLine_of_error he

/-! ## Authorization engine lemmas -/

theorem match_rules_iff (st : Store) (v p : Nat) :
    match_rules st v p = true ↔ (v, p) ∈ st.rules := by
  simp only [match_rules, List.any_eq_true, Bool.and_eq_true, beq_iff_eq]
  constructor
  · rintro ⟨⟨a, b⟩, hx, rfl, rfl⟩
    exact hx
  · intro h
    exact ⟨(v, p), h, rfl, rfl⟩

theorem serial_blocked_iff (st : Store) (s : List Char) :
    serial_blocked st (some s) = true ↔ s ≠ [] ∧ s ∈ st.blocked := by
  by_cases hs : s = []
  · simp [serial_blocked, hs]
  · simp [serial_blocked, hs, List.any_eq_true, beq_iff_eq]

/-- C1: for every attach event the decision is computed in fixed order:
no identity rule for the vid/pid pair gives Deny(IdentityNotAllowed)
whatever the serial is; otherwise a presented serial from the blocked set
gives Deny(SerialBlocked); otherwise the device is allowed. -/
theorem claim_C1_probe_decision_order (st : Store) (v p : Nat)
    (serial : Option (List Char)) :
    ((v, p) ∉ st.rules →
      usbguard_probe st v p serial = Decision.deny DenyReason.identityNotAllowed)
    ∧ (∀ s, serial = some s → (v, p) ∈ st.rules → s ≠ [] → s ∈ st.blocked →
        usbguard_probe st v p serial = Decision.deny DenyReason.serialBlocked)
    ∧ ((v, p) ∈ st.rules → serial_blocked st serial = false →
        usbguard_probe st v p serial = Decision.allow) := by
  refine ⟨?_, ?_, ?_⟩
  · intro hmem
    have hm : match_rules st v p = false :=
      Bool.eq_false_iff.mpr (fun ht => hmem ((match_rules_iff st v p).mp ht))
    simp [usbguard_probe, hm]
  · rintro s rfl hmem hne hblk
    have hm : match_rules st v p = true := (match_rules_iff st v p).mpr hmem
    have hb : serial_blocked st (some s) = true :=
      (serial_blocked_iff st s).mpr ⟨hne, hblk⟩
    simp [usbguard_probe, hm, check_interface_classes, hb]
  · intro hmem hb
    have hm : match_rules st v p = true := (match_rules_iff st v p).mpr hmem
    cases serial with
    | none => simp [usbguard_probe, hm, check_interface_classes]
    | some s => simp [usbguard_probe, hm, check_interface_classes, hb]

theorem claim_C1_witness :
    usbguard_probe ⟨[(1, 2)], []⟩ 3 4 (some ['a']) =
      Decision.deny DenyReason.identityNotAllowed
    ∧ usbguard_probe ⟨[(1, 2)], [['a']]⟩ 1 2 (some ['a']) =
      Decision.deny DenyReason.serialBlocked
    ∧ usbguard_probe ⟨[(1, 2)], [['a']]⟩ 1 2 (some ['b']) = Decision.allow :=
  ⟨(claim_C1_probe_decision_order ⟨[(1, 2)], []⟩ 3 4 (some ['a'])).1 (by decide),
    (claim_C1_probe_decision_order ⟨[(1, 2)], [['a']]⟩ 1 2 (some ['a'])).2.1
      ['a'] rfl (by decide) (by decide) (by decide),
    (claim_C1_probe_decision_order ⟨[(1, 2)], [['a']]⟩ 1 2 (some ['b'])).2.2
      (by decide) (by decide)⟩

/-- C5: `serial_blocked` is false for an absent or empty serial whatever
the store holds, and a device whose identity matches a rule and which
presents no serial is accepted. -/
theorem claim_C5_empty_serial_not_blocked :
    (∀ st : Store, serial_blocked st none = false)
    ∧ (∀ st : Store, serial_blocked st (some []) = false)
    ∧ (∀ (st : Store) (v p : Nat), (v, p) ∈ st.rules →
        usbguard_probe st v p none = Decision.allow) := by
  refine ⟨fun st => rfl, fun st => by simp [serial_blocked], fun st v p hmem => ?_⟩
  have hm : match_rules st v p = true := (match_rules_iff st v p).mpr hmem
  simp [usbguard_probe, hm, check_interface_classes]

theorem claim_C5_witness :
    usbguard_probe ⟨[(0x04d9, 0x1702)], [['X']]⟩ 0x04d9 0x1702 none = Decision.allow :=
  claim_C5_empty_serial_not_blocked.2.2 ⟨[(0x04d9, 0x1702)], [['X']]⟩ 0x04d9 0x1702
    (by decide)

/-! ## Store invariants -/

theorem foldl_loadLine (ls : List (List Char)) (st : Store) :
    ls.foldl loadLine st = st := by
  induction ls generalizing st with
  | nil => rfl
  | cons l ls ih => simp [loadLine_eq_self, ih]

theorem foldl_loadLine_trim (ls : List (List Char)) (st : Store) :
    ls.foldl (fun s l => loadLine s (trim l)) st = st := by
  induction ls generalizing st with
  | nil => rfl
  | cons l ls ih => simp [loadLine_eq_self, ih]

theorem blockedLine_rules (st : Store) (l : List Char) :
    (blockedLine st l).rules = st.rules := by
  simp only [blockedLine]
  split_ifs <;> rfl

theorem blockedLine_blocked_grow (st : Store) (l : List Char) :
    ∃ eb, (blockedLine st l).blocked = st.blocked ++ eb := by
  simp only [blockedLine]
  split_ifs
  · exact ⟨[], by simp⟩
  · exact ⟨[trim l], rfl⟩
  · exact ⟨[], by simp⟩

theorem blockedLine_blocked_le (st : Store) (l : List Char)
    (h : st.blocked.length ≤ MAX_SERIALS) :
    (blockedLine st l).blocked.length ≤ MAX_SERIALS := by
  simp only [blockedLine]
  split_ifs with h1 h2
  · exact h
  · simpa using h2
  · exact h

theorem blockedLine_freeze (st : Store) (l : List Char)
    (h : MAX_SERIALS ≤ st.blocked.length) : blockedLine st l = st := by
  simp only [blockedLine]
  split_ifs with h1 h2
  · rfl
  · omega
  · rfl

theorem foldl_blockedLine_rules (ls : List (List Char)) (st : Store) :
    (ls.foldl blockedLine st).rules = st.rules := by
  induction ls generalizing st with
  | nil => rfl
  | cons l ls ih => rw [List.foldl_cons, ih, blockedLine_rules]

theorem foldl_blockedLine_grow (ls : List (List Char)) (st : Store) :
    ∃ eb, (ls.foldl blockedLine st).blocked = st.blocked ++ eb := by
  induction ls generalizing st with
  | nil => exact ⟨[], by simp⟩
  | cons l ls ih =>
    obtain ⟨e1, he1⟩ := blockedLine_blocked_grow st l
    obtain ⟨e2, he2⟩ := ih (blockedLine st l)
    exact ⟨e1 ++ e2, by rw [List.foldl_cons, he2, he1, List.append_assoc]⟩

theorem foldl_blockedLine_le (ls : List (List Char)) (st : Store)
    (h : st.blocked.length ≤ MAX_SERIALS) :
    (ls.foldl blockedLine st).blocked.length ≤ MAX_SERIALS := by
  induction ls generalizing st with
  | nil => exact h
  | cons l ls ih => exact ih (blockedLine st l) (blockedLine_blocked_le st l h)

theorem foldl_blockedLine_freeze (ls : List (List Char)) (st : Store)
    (h : MAX_SERIALS ≤ st.blocked.length) : ls.foldl blockedLine st = st := by
  induction ls generalizing st with
  | nil => rfl
  | cons l ls ih => rw [List.foldl_cons, blockedLine_freeze st l h, ih st h]

theorem applyOp_rules (st : Store) (op : Op) : (applyOp st op).rules = st.rules := by
  cases op with
  | load lines => simp [applyOp, load_rules_from_file, foldl_loadLine]
  | rulesW buf => simp [applyOp, rules_store, foldl_loadLine_trim]
  | blockedW buf => simp [applyOp, blocked_store, foldl_blockedLine_rules]

theorem applyOp_blocked_grow (st : Store) (op : Op) :
    ∃ eb, (applyOp st op).blocked = st.blocked ++ eb := by
  cases op with
  | load lines => exact ⟨[], by simp [applyOp, load_rules_from_file, foldl_loadLine]⟩
  | rulesW buf => exact ⟨[], by simp [applyOp, rules_store, foldl_loadLine_trim]⟩
  | blockedW buf => simpa [applyOp, blocked_store] using foldl_blockedLine_grow (splitNl buf) st

theorem applyOp_blocked_le (st : Store) (op : Op)
    (h : st.blocked.length ≤ MAX_SERIALS) :
    (applyOp st op).blocked.length ≤ MAX_SERIALS := by
  cases op with
  | load lines => simpa [applyOp, load_rules_from_file, foldl_loadLine] using h
  | rulesW buf => simpa [applyOp, rules_store, foldl_loadLine_trim] using h
  | blockedW buf => simpa [applyOp, blocked_store] using foldl_blockedLine_le (splitNl buf) st h

theorem runOps_rules (st : Store) (ops : List Op) : (runOps st ops).rules = st.rules := by
  induction ops generalizing st with
  | nil => rfl
  | cons op ops ih => rw [runOps, List.foldl_cons, ← runOps, ih, applyOp_rules]

theorem runOps_blocked_grow (st : Store) (ops : List Op) :
    ∃ eb, (runOps st ops).blocked = st.blocked ++ eb := by
  induction ops generalizing st with
  | nil => exact ⟨[], by simp [runOps]⟩
  | cons op ops ih =>
    obtain ⟨e1, he1⟩ := applyOp_blocked_grow st op
    obtain ⟨e2, he2⟩ := ih (applyOp st op)
    refine ⟨e1 ++ e2, ?_⟩
    rw [runOps, List.foldl_cons, ← runOps, he2, he1, List.append_assoc]

/-- C3: starting from the empty store, no sequence of bulk loads and
sysfs writes pushes either count past its bound, and an insertion hitting
a full collection leaves the stored entries exactly as they were. -/
theorem claim_C3_capacity_invariant :
    (∀ ops : List Op, (runOps emptyStore ops).rules.length ≤ MAX_RULES
      ∧ (runOps emptyStore ops).blocked.length ≤ MAX_SERIALS)
    ∧ (∀ (st : Store) (op : Op), MAX_RULES ≤ st.rules.length →
        (applyOp st op).rules = st.rules)
    ∧ (∀ (st : Store) (op : Op), MAX_SERIALS ≤ st.blocked.length →
        (applyOp st op).blocked = st.blocked) := by
  refine ⟨fun ops => ⟨?_, ?_⟩, fun st op _ => applyOp_rules st op, fun st op h => ?_⟩
  · rw [runOps_rules]
    simp [emptyStore, MAX_RULES]
  · have : ∀ (ops : List Op) (st : Store), st.blocked.length ≤ MAX_SERIALS →
        (runOps st ops).blocked.length ≤ MAX_SERIALS := by
      intro ops
      induction ops with
      | nil => exact fun st h => h
      | cons op ops ih =>
        intro st h
        rw [runOps, List.foldl_cons, ← runOps]
        exact ih (applyOp st op) (applyOp_blocked_le st op h)
    exact this ops emptyStore (by simp [emptyStore])
  · cases op with
    | load lines => simp [applyOp, load_rules_from_file, foldl_loadLine]
    | rulesW buf => simp [applyOp, rules_store, foldl_loadLine_trim]
    | blockedW buf => simp [applyOp, blocked_store, foldl_blockedLine_freeze _ _ h]

theorem claim_C3_witness :
    (applyOp ⟨List.replicate MAX_RULES (1, 2), []⟩ (Op.rulesW ('0' :: []))).rules =
      List.replicate MAX_RULES (1, 2)
    ∧ (applyOp ⟨[], List.replicate MAX_SERIALS ['a']⟩ (Op.blockedW ['b'])).blocked =
      List.replicate MAX_SERIALS ['a'] :=
  ⟨claim_C3_capacity_invariant.2.1 ⟨List.replicate MAX_RULES (1, 2), []⟩ _ (by simp),
    claim_C3_capacity_invariant.2.2 ⟨[], List.replicate MAX_SERIALS ['a']⟩ _ (by simp)⟩

/-- C10: the store is grow-only: every operation leaves the existing
rules and blocked serials in place (appending at most), so a positive
`match_rules` answer, and a positive `serial_blocked` answer for a
non-empty serial, both persist across any later operations. -/
theorem claim_C10_grow_only (st : Store) (ops : List Op) :
    (∃ er, (runOps st ops).rules = st.rules ++ er)
    ∧ (∃ eb, (runOps st ops).blocked = st.blocked ++ eb)
    ∧ (∀ v p, match_rules st v p = true → match_rules (runOps st ops) v p = true)
    ∧ (∀ s, s ≠ [] → serial_blocked st (some s) = true →
        serial_blocked (runOps st ops) (some s) = true) := by
  refine ⟨⟨[], by simp [runOps_rules]⟩, runOps_blocked_grow st ops, ?_, ?_⟩
  · intro v p h
    simpa [match_rules, runOps_rules] using h
  · intro s hne h
    obtain ⟨hne', hmem⟩ := (serial_blocked_iff st s).mp h
    obtain ⟨eb, heb⟩ := runOps_blocked_grow st ops
    refine (serial_blocked_iff (runOps st ops) s).mpr ⟨hne', ?_⟩
    rw [heb]
    exact List.mem_append_left eb hmem

theorem claim_C10_witness :
    match_rules (runOps ⟨[(1, 2)], [['a']]⟩ [Op.blockedW ['b']]) 1 2 = true
    ∧ serial_blocked (runOps ⟨[(1, 2)], [['a']]⟩ [Op.blockedW ['b']]) (some ['a']) = true :=
  ⟨(claim_C10_grow_only ⟨[(1, 2)], [['a']]⟩ [Op.blockedW ['b']]).2.2.1 1 2 (by decide),
    (claim_C10_grow_only ⟨[(1, 2)], [['a']]⟩ [Op.blockedW ['b']]).2.2.2 ['a']
      (by decide) (by decide)⟩

/-! ## Parsing edge cases and loader evaluations -/

/-- C7: a two-token hex line whose value exceeds 0xFFFF is rejected and
adds no rule (never truncated), a lone vendor token with no second token
is rejected, and a line whose first character after trimming is the hash
mark is skipped whatever follows it. -/
theorem claim_C7_parser_edge_cases :
    (∀ (st : Store) (a b : List Char), a ≠ [] → b ≠ [] →
      a.all (fun c => isHexDigit c) = true → b.all (fun c => isHexDigit c) = true →
      0xFFFF < hexVal a ∨ 0xFFFF < hexVal b →
      (∃ e, parse_vidpid_line (a ++ ' ' :: b) = Except.error e)
        ∧ loadLine st (a ++ ' ' :: b) = st)
    ∧ (∀ (st : Store) (a : List Char), a ≠ [] →
      a.all (fun c => isHexDigit c) = true →
      (∃ e, parse_vidpid_line a = Except.error e) ∧ loadLine st a = st)
    ∧ (∀ (st : Store) (line : List Char), (trim line).head? = some '#' →
      parse_vidpid_line line = Except.error (-EINVAL) ∧ loadLine st line = st) := by
  refine ⟨?_, ?_, ?_⟩
  · intro st a b _ _ _ _ _
    exact ⟨parse_vidpid_line_never_ok (a ++ ' ' :: b), loadLine_eq_self st _⟩
  · intro st a _ _
    exact ⟨parse_vidpid_line_never_ok a, loadLine_eq_self st a⟩
  · intro st line hh
    exact ⟨by simp [parse_vidpid_line, hh], loadLine_eq_self st line⟩

theorem claim_C7_witness :
    ((∃ e, parse_vidpid_line ("10000 1".toList) = Except.error e)
      ∧ loadLine emptyStore ("10000 1".toList) = emptyStore)
    ∧ ((∃ e, parse_vidpid_line ("04d9".toList) = Except.error e)
      ∧ loadLine emptyStore ("04d9".toList) = emptyStore)
    ∧ (parse_vidpid_line ("# 04d9 1702".toList) = Except.error (-EINVAL)
      ∧ loadLine emptyStore ("# 04d9 1702".toList) = emptyStore) :=
  ⟨claim_C7_parser_edge_cases.1 emptyStore ("10000".toList) ("1".toList)
      (by decide) (by decide) (by decide) (by decide) (by decide),
    claim_C7_parser_edge_cases.2.1 emptyStore ("04d9".toList) (by decide) (by decide),
    claim_C7_parser_edge_cases.2.2 emptyStore ("# 04d9 1702".toList) (by decide)⟩

/-- C2 (code divergence): on the five-line sequence of the specification
the loader loads zero rules, not two, and its return value is the
constant 0 carrying no record of the skips: the strict `kstrtoul` rejects
the two well-formed rule lines because of the text after the first
number. -/
theorem claim_C2_bulk_load_eval :
    load_rules_from_file
      ["# comment".toList, "".toList, "04d9 1702".toList,
        "bad line".toList, "046d c077".toList] emptyStore = (emptyStore, 0)
    ∧ parse_vidpid_line ("04d9 1702".toList) = Except.error (-EINVAL)
    ∧ parse_vidpid_line ("046d c077".toList) = Except.error (-EINVAL) :=
  ⟨rfl, rfl, rfl⟩

/-- C8 (code divergence): loading the same well-formed rule line twice,
through the file loader or the sysfs `rules` handler, leaves the rule
list empty instead of holding the rule twice: no insertion ever happens
because `parse_vidpid_line` rejects every two-token line. -/
theorem claim_C8_double_load_eval :
    (load_rules_from_file ["04d9 1702".toList]
      ((load_rules_from_file ["04d9 1702".toList] emptyStore).1)).1.rules = []
    ∧ (rules_store ((rules_store emptyStore ("04d9 1702".toList)).1)
        ("04d9 1702".toList)).1.rules = [] :=
  ⟨rfl, rfl⟩

/-! ## Blocked-serial store -/

theorem blockedLine_of_blank {st : Store} {l : List Char} (h : trim l = []) :
    blockedLine st l = st := by
  simp [blockedLine, h]

/-- C6 counterexample: a sysfs `blocked_serials` write whose text trims
to nothing leaves the store unchanged but returns the byte count 3, a
success in sysfs terms, not an error value. -/
theorem claim_C6_counterexample :
    blocked_store emptyStore ("   ".toList) = (emptyStore, 3)
    ∧ 0 ≤ (blocked_store emptyStore ("   ".toList)).2 :=
  ⟨rfl, by decide⟩

/-- C6 amended: a `blocked_serials` write all of whose lines trim to
empty leaves the blocked set unchanged and reports success by returning
the byte count; no error is surfaced to the caller. -/
theorem claim_C6_blank_serial_skipped (st : Store) (buf : List Char)
    (h : ∀ l ∈ splitNl buf, trim l = []) :
    blocked_store st buf = (st, (buf.length : Int)) := by
  unfold blocked_store
  have : ∀ (ls : List (List Char)) (st : Store), (∀ l ∈ ls, trim l = []) →
      ls.foldl blockedLine st = st := by
    intro ls
    induction ls with
    | nil => intro st _; rfl
    | cons l ls ih =>
      intro st hall
      rw [List.foldl_cons, blockedLine_of_blank (hall l (List.mem_cons_self l ls)),
        ih st (fun x hx => hall x (List.mem_cons_of_mem l hx))]
  rw [this (splitNl buf) st h]

theorem claim_C6_witness :
    blocked_store ⟨[], [['a']]⟩ (" \n  ".toList) = (⟨[], [['a']]⟩, 4) :=
  claim_C6_blank_serial_skipped ⟨[], [['a']]⟩ (" \n  ".toList) (by decide)

/-! ## add_rule capacity (src/unnamed/part_002) -/

theorem runAddCalls_spec (bufs : List (List Char)) :
    ∀ st : StoreV1, (∀ b ∈ bufs, (sscanf2 b).isSome = true) →
      st.rules.length + bufs.length ≤ MAX_RULES_V1 →
      (runAddCalls st bufs).1.rules.length = st.rules.length + bufs.length
      ∧ ∀ r ∈ (runAddCalls st bufs).2, 0 ≤ r := by
  induction bufs with
  | nil =>
    intro st _ _
    exact ⟨by simp [runAddCalls], by simp [runAddCalls]⟩
  | cons b bs ih =>
    intro st hall hcap
    obtain ⟨vp, hvp⟩ := Option.isSome_iff_exists.mp (hall b (List.mem_cons_self b bs))
    have hlt : ¬ MAX_RULES_V1 ≤ st.rules.length := by
      simp only [List.length_cons] at hcap
      omega
    have hstep : add_rule_store st b = (⟨st.rules ++ [vp]⟩, (b.length : Int)) := by
      simp [add_rule_store, hlt, hvp]
    have ih' := ih ⟨st.rules ++ [vp]⟩
      (fun x hx => hall x (List.mem_cons_of_mem b hx))
      (by dsimp only
          simp only [List.length_append, List.length_cons, List.length_nil] at hcap ⊢
          omega)
    constructor
    · simp only [runAddCalls, hstep]
      rw [ih'.1]
      dsimp only
      simp only [List.length_append, List.length_cons, List.length_nil]
      omega
    · intro r hr
      simp only [runAddCalls, hstep, List.mem_cons] at hr
      rcases hr with rfl | hr
      · exact Int.natCast_nonneg b.length
      · exact ih'.2 r hr

/-- C4: from an empty store, `add_rule` (the sysfs handler of
src/unnamed/part_002) called `MAX_RULES` times with buffers that scan as
two hex values succeeds every time (returns the non-negative byte
count); the store then holds `MAX_RULES` rules, and any further call
fails with -ENOMEM leaving the store unchanged. -/
theorem claim_C4_add_rule_capacity (bufs : List (List Char))
    (hlen : bufs.length = MAX_RULES_V1)
    (hall : ∀ b ∈ bufs, (sscanf2 b).isSome = true) :
    (∀ r ∈ (runAddCalls ⟨[]⟩ bufs).2, 0 ≤ r)
    ∧ (runAddCalls ⟨[]⟩ bufs).1.rules.length = MAX_RULES_V1
    ∧ (∀ b, add_rule_store (runAddCalls ⟨[]⟩ bufs).1 b =
        ((runAddCalls ⟨[]⟩ bufs).1, -ENOMEM)) := by
  have h := runAddCalls_spec bufs ⟨[]⟩ hall (by simp [hlen])
  refine ⟨h.2, by simpa [hlen] using h.1, fun b => ?_⟩
  have hfull : MAX_RULES_V1 ≤ (runAddCalls ⟨[]⟩ bufs).1.rules.length := by
    rw [h.1]
    simp [hlen]
  simp [add_rule_store, hfull]

theorem claim_C4_witness :
    (∀ r ∈ (runAddCalls ⟨[]⟩ (List.replicate 10 ("04d9 1702".toList))).2, 0 ≤ r)
    ∧ (runAddCalls ⟨[]⟩ (List.replicate 10 ("04d9 1702".toList))).1.rules.length =
      MAX_RULES_V1
    ∧ (∀ b, add_rule_store (runAddCalls ⟨[]⟩ (List.replicate 10 ("04d9 1702".toList))).1 b =
        ((runAddCalls ⟨[]⟩ (List.replicate 10 ("04d9 1702".toList))).1, -ENOMEM)) :=
  claim_C4_add_rule_capacity (List.replicate 10 ("04d9 1702".toList))
    (by decide) (by decide)
